import Mathlib

/-!
Verification of the random module (xorshift* PRNG, rejection-sampling range
sampler, Fisher–Yates shuffle) of the `claudiofsr_lib` repository.

Machine integers `u64` are modelled as `ℕ` with explicit reduction modulo
`2 ^ 64` wherever the source performs wrapping arithmetic.  The thread-local
generator is modelled by explicit state passing: callers of the raw draw
operation receive values from a stream `draws : ℕ → ℕ` together with an index
`idx` counting how many draws have been taken so far, so that "the PRNG state
is unchanged" is expressed as "the index is unchanged".
-/

/-- `2 ^ 64`, the modulus of `u64` wrapping arithmetic. -/
def u64Mod : ℕ := 2 ^ 64

/-- `u64::MAX`. -/
def u64MAX : ℕ := 2 ^ 64 - 1

/-- The three xor-shift steps of `XorShiftRng::generate`:
`x ^= x >> 12; x ^= x << 25; x ^= x >> 27` on a 64-bit `x`
(the left shift wraps, i.e. is truncated to 64 bits). -/
def xorshiftStep (x : ℕ) : ℕ :=
  let a := x ^^^ (x >>> 12)
  let b := a ^^^ ((a <<< 25) % u64Mod)
  b ^^^ (b >>> 27)

/-- The PRNG of `random.rs`: a single 64-bit state. -/
structure XorShiftRng where
  state : ℕ
deriving DecidableEq

/-- `XorShiftRng::new(seed)`: stores the seed as the state, unchanged. -/
def XorShiftRng.new (seed : ℕ) : XorShiftRng :=
  ⟨seed⟩

/-- `XorShiftRng::generate`: advances the state by the three xor-shift steps
and returns the new state multiplied (wrapping) by `0x2545F4914F6CDD1D`,
together with the updated generator. -/
def XorShiftRng.generate (r : XorShiftRng) : ℕ × XorShiftRng :=
  let x := xorshiftStep r.state
  ((x * 0x2545F4914F6CDD1D) % u64Mod, ⟨x⟩)

/-- `get_seed()`: the clock reading in nanoseconds (a `u128`, here an
arbitrary `ℕ`) is cast `as u64` (truncation mod `2 ^ 64`); a zero result is
replaced by `1`. -/
def get_seed (nanos : ℕ) : ℕ :=
  let n := nanos % u64Mod
  if n = 0 then 1 else n

/-- The generator obtained from `r` after `k` calls to `generate`. -/
def rngAfter (r : XorShiftRng) : ℕ → XorShiftRng
  | 0 => r
  | k + 1 => (rngAfter r k).generate.2

/-- The value returned by the `(k+1)`-st call to `generate` starting from `r`. -/
def nthDraw (r : XorShiftRng) (k : ℕ) : ℕ :=
  (rngAfter r k).generate.1

/-- `range_size` in `random_in_range`: `max.wrapping_sub(min).wrapping_add(1)`.
This line is only reached after the `min > max` guard has returned, so
`max.wrapping_sub(min)` is plain subtraction `max - min` (reduced mod `2 ^ 64`
for arbitrary `ℕ` arguments); `wrapping_add(1)` is the outer `% 2 ^ 64`.
`range_size_models_wrapping` below proves this equal to the literal
`(max + 2 ^ 64 - min) % 2 ^ 64` two's-complement rendering of `wrapping_sub`
on the reachable inputs. -/
def range_size (min max : ℕ) : ℕ :=
  ((max - min) % u64Mod + 1) % u64Mod

/-- `rejection_threshold` in `random_in_range`:
`(u64::MAX / range_size) * range_size`. -/
def rejection_threshold (min max : ℕ) : ℕ :=
  (u64MAX / range_size min max) * range_size min max

/-- The `for _ in 0..MAX_RETRIES` rejection loop of `random_in_range`,
followed by the biased fallback draw when every attempt was rejected.
`fuel` is the number of remaining attempts (`100` initially) and `idx` the
position in the draw stream.  Returns the result together with the index
after the consumed draws. -/
def rejectLoop (draws : ℕ → ℕ) (min rs th : ℕ) : ℕ → ℕ → Except String ℕ × ℕ
  | 0, idx => (Except.ok (min + draws idx % rs), idx + 1)
  | fuel + 1, idx =>
      if draws idx < th then (Except.ok (min + draws idx % rs), idx + 1)
      else rejectLoop draws min rs th fuel (idx + 1)

/-- `random_in_range(min, max)` over a draw stream: validates the range,
handles the full-width special case, and otherwise runs the bounded
rejection loop.  The second component is the index after the consumed
draws (unchanged on the error path, which draws nothing). -/
def random_in_range (draws : ℕ → ℕ) (min max : ℕ) (idx : ℕ) :
    Except String ℕ × ℕ :=
  if min > max then
    (Except.error s!"min ({min}) must be less than or equal to max ({max})", idx)
  else if range_size min max = 0 then
    (Except.ok (draws idx), idx + 1)
  else
    rejectLoop draws min (range_size min max) (rejection_threshold min max) 100 idx

/-- The call site `random_in_range(0, i as u64).unwrap()` in `Shuffle::shuffle`:
the error branch models the panic path of `unwrap` (proved unreachable). -/
def sampleIndex (draws : ℕ → ℕ) (i idx : ℕ) : ℕ × ℕ :=
  match random_in_range draws 0 i idx with
  | (Except.ok j, idx2) => (j, idx2)
  | (Except.error _, idx2) => (0, idx2)

/-- `self.swap(i, j)` on a slice, modelled on lists: exchanges the elements
at positions `i` and `j` (identity when an index is out of bounds, a case
the shuffle loop never produces). -/
def listSwap {α : Type _} (l : List α) (i j : ℕ) : List α :=
  match l[i]?, l[j]? with
  | some a, some b => (l.set i b).set j a
  | _, _ => l

/-- The loop `for i in (1..len).rev()` of `Shuffle::shuffle`: the argument
`i` is the current loop index (steps run at `i, i-1, …, 1`); at each step a
position `j` in `[0, i]` is sampled and elements `i` and `j` are swapped. -/
def shuffleLoop {α : Type _} (draws : ℕ → ℕ) : ℕ → List α → ℕ → List α × ℕ
  | 0, l, idx => (l, idx)
  | i + 1, l, idx =>
      shuffleLoop draws i (listSwap l (i + 1) (sampleIndex draws (i + 1) idx).1)
        (sampleIndex draws (i + 1) idx).2

/-- `Shuffle::shuffle` on a list, over a draw stream starting at `idx`. -/
def shuffle {α : Type _} (draws : ℕ → ℕ) (l : List α) (idx : ℕ) : List α × ℕ :=
  shuffleLoop draws (l.length - 1) l idx

/-! ### Helper lemmas: each xor-shift step fixes only zero -/

lemma xor_shiftRight_eq_zero {x n : ℕ} (hn : 0 < n) (h : x ^^^ (x >>> n) = 0) :
    x = 0 := by
  rw [Nat.xor_eq_zero] at h
  by_contra hx
  have hlt : x >>> n < x := by
    rw [Nat.shiftRight_eq_div_pow]
    exact Nat.div_lt_self (Nat.pos_of_ne_zero hx)
      (Nat.one_lt_two_pow_iff.mpr (by omega))
  omega

lemma xor_shiftLeft_mod_eq_zero {x : ℕ} (h : x ^^^ ((x <<< 25) % u64Mod) = 0) :
    x = 0 := by
  rw [Nat.xor_eq_zero] at h
  have hx64 : x < u64Mod := by
    conv_lhs => rw [h]
    exact Nat.mod_lt _ (by norm_num [u64Mod])
  rw [Nat.shiftLeft_eq] at h
  have h25 : (2 : ℕ) ^ 25 = 33554432 := by norm_num
  have hmod : Nat.ModEq u64Mod x (x * 2 ^ 25) := by
    unfold Nat.ModEq
    rw [Nat.mod_eq_of_lt hx64]
    exact h
  have hdvd : u64Mod ∣ x * 2 ^ 25 - x :=
    (Nat.modEq_iff_dvd' (by omega)).mp hmod
  have heq : x * 2 ^ 25 - x = x * 33554431 := by omega
  rw [heq] at hdvd
  have hcop : Nat.Coprime u64Mod 33554431 := by
    have h2 : Nat.Coprime 2 33554431 :=
      Nat.coprime_two_left.mpr (Nat.odd_iff.mpr (by norm_num))
    exact h2.pow_left 64
  have hdx : u64Mod ∣ x := hcop.dvd_of_dvd_mul_right hdvd
  exact Nat.eq_zero_of_dvd_of_lt hdx hx64

lemma xorshiftStep_eq_zero {x : ℕ} (h : xorshiftStep x = 0) : x = 0 := by
  simp only [xorshiftStep] at h
  have h2 := xor_shiftRight_eq_zero (n := 27) (by norm_num) h
  have h1 := xor_shiftLeft_mod_eq_zero h2
  exact xor_shiftRight_eq_zero (n := 12) (by norm_num) h1

lemma xorshiftStep_ne_zero {x : ℕ} (h : x ≠ 0) : xorshiftStep x ≠ 0 :=
  fun hz => h (xorshiftStep_eq_zero hz)

lemma xorshiftStep_lt {x : ℕ} (h : x < u64Mod) : xorshiftStep x < u64Mod := by
  simp only [xorshiftStep]
  have h1 : x ^^^ (x >>> 12) < u64Mod := by
    apply Nat.xor_lt_two_pow h
    calc x >>> 12 ≤ x := by
          rw [Nat.shiftRight_eq_div_pow]; exact Nat.div_le_self _ _
      _ < u64Mod := h
  have h2 : x ^^^ (x >>> 12) ^^^ ((x ^^^ x >>> 12) <<< 25 % u64Mod) < u64Mod := by
    apply Nat.xor_lt_two_pow h1
    exact Nat.mod_lt _ (by norm_num [u64Mod])
  apply Nat.xor_lt_two_pow h2
  calc (x ^^^ x >>> 12 ^^^ (x ^^^ x >>> 12) <<< 25 % u64Mod) >>> 27
        ≤ x ^^^ x >>> 12 ^^^ (x ^^^ x >>> 12) <<< 25 % u64Mod := by
          rw [Nat.shiftRight_eq_div_pow]; exact Nat.div_le_self _ _
    _ < u64Mod := h2

lemma rngAfter_state (r : XorShiftRng) (k : ℕ) :
    (rngAfter r (k + 1)).state = xorshiftStep (rngAfter r k).state := rfl

lemma rngAfter_state_ne_zero {s : ℕ} (h : s ≠ 0) (k : ℕ) :
    (rngAfter (XorShiftRng.new s) k).state ≠ 0 := by
  induction k with
  | zero => exact h
  | succ k ih => rw [rngAfter_state]; exact xorshiftStep_ne_zero ih

lemma rngAfter_state_lt {s : ℕ} (h : s < u64Mod) (k : ℕ) :
    (rngAfter (XorShiftRng.new s) k).state < u64Mod := by
  induction k with
  | zero => exact h
  | succ k ih => rw [rngAfter_state]; exact xorshiftStep_lt ih

lemma mul_odd_mod_ne_zero {x : ℕ} (hx : x ≠ 0) (hlt : x < u64Mod) :
    (x * 0x2545F4914F6CDD1D) % u64Mod ≠ 0 := by
  intro h0
  have hdvd : u64Mod ∣ x * 0x2545F4914F6CDD1D :=
    Nat.dvd_iff_mod_eq_zero.mpr h0
  have hcop : Nat.Coprime u64Mod 0x2545F4914F6CDD1D := by
    have h2 : Nat.Coprime 2 0x2545F4914F6CDD1D :=
      Nat.coprime_two_left.mpr (Nat.odd_iff.mpr (by norm_num))
    exact h2.pow_left 64
  exact hx (Nat.eq_zero_of_dvd_of_lt (hcop.dvd_of_dvd_mul_right hdvd) hlt)

example : nthDraw (XorShiftRng.new 12345) 0 = 10977518812293740004 := by decide
example : nthDraw (XorShiftRng.new 12345) 1 = 13893246733018840292 := by decide
example : nthDraw (XorShiftRng.new 12345) 2 = 1412386850724336324 := by decide
example : random_in_range (fun _ => 5) 1 20 0 = (Except.ok 6, 1) := rfl
example : random_in_range (fun _ => 5) 21 20 0
    = (Except.error "min (21) must be less than or equal to max (20)", 0) := rfl
example : random_in_range (fun _ => 7) 0 u64MAX 3 = (Except.ok 7, 4) := rfl
example : (shuffle (fun _ => 0) [1, 2, 3, 4] 0).1 = [2, 3, 4, 1] := by decide

/-! ### Claim theorems: generator (C4, C5, C9) -/

/-- C4: one `generate` call updates the state by exactly the three xor-shift
steps `x ^= x >> 12`, `x ^= x << 25` (wrapping), `x ^= x >> 27`, and returns
the new state multiplied by `0x2545F4914F6CDD1D` modulo `2 ^ 64`; from seed
`12345` the first three raw draws equal the reference xorshift* values. -/
theorem generate_is_xorshift_star :
    (∀ x : ℕ, xorshiftStep x
        = ((x ^^^ x >>> 12) ^^^ (x ^^^ x >>> 12) <<< 25 % u64Mod)
          ^^^ ((x ^^^ x >>> 12) ^^^ (x ^^^ x >>> 12) <<< 25 % u64Mod) >>> 27)
    ∧ (∀ r : XorShiftRng,
        r.generate = ((xorshiftStep r.state * 0x2545F4914F6CDD1D) % u64Mod,
          ⟨xorshiftStep r.state⟩))
    ∧ nthDraw (XorShiftRng.new 12345) 0 = 10977518812293740004
    ∧ nthDraw (XorShiftRng.new 12345) 1 = 13893246733018840292
    ∧ nthDraw (XorShiftRng.new 12345) 2 = 1412386850724336324 :=
  ⟨fun _ => rfl, fun _ => rfl, by decide, by decide, by decide⟩

/-- C5 counterexample: `XorShiftRng::new(0)` stores state `0` unchanged — the
constructor substitutes no non-zero default — and the resulting generator
returns `0` on its first draws (zero is a fixed point of the transform). -/
theorem new_zero_is_stuck :
    (XorShiftRng.new 0).state = 0
    ∧ nthDraw (XorShiftRng.new 0) 0 = 0
    ∧ nthDraw (XorShiftRng.new 0) 1 = 0
    ∧ nthDraw (XorShiftRng.new 0) 2 = 0 := by
  decide

/-- C5 amended: the zero substitution lives in the seed provider, not the
constructor: `get_seed` never returns `0` (a zero clock reading is replaced by
`1`), so the generator actually constructed, `new(get_seed(..))`, has non-zero
state forever and none of its draws is `0`. -/
theorem get_seed_nonzero_no_stuck (nanos : ℕ) :
    get_seed nanos ≠ 0
    ∧ (∀ k, (rngAfter (XorShiftRng.new (get_seed nanos)) k).state ≠ 0)
    ∧ (∀ k, nthDraw (XorShiftRng.new (get_seed nanos)) k ≠ 0) := by
  have hne : get_seed nanos ≠ 0 := by
    show (if nanos % u64Mod = 0 then 1 else nanos % u64Mod) ≠ 0
    by_cases h0 : nanos % u64Mod = 0
    · rw [if_pos h0]; exact one_ne_zero
    · rw [if_neg h0]; exact h0
  have hlt : get_seed nanos < u64Mod := by
    show (if nanos % u64Mod = 0 then 1 else nanos % u64Mod) < u64Mod
    by_cases h0 : nanos % u64Mod = 0
    · rw [if_pos h0]; norm_num [u64Mod]
    · rw [if_neg h0]; exact Nat.mod_lt _ (by norm_num [u64Mod])
  refine ⟨hne, rngAfter_state_ne_zero hne, fun k => ?_⟩
  show (xorshiftStep (rngAfter (XorShiftRng.new (get_seed nanos)) k).state
      * 0x2545F4914F6CDD1D) % u64Mod ≠ 0
  exact mul_odd_mod_ne_zero
    (xorshiftStep_ne_zero (rngAfter_state_ne_zero hne k))
    (xorshiftStep_lt (rngAfter_state_lt hlt k))

/-- C9: the non-zero-state invariant is preserved by every generator step:
`xorshiftStep` maps non-zero states to non-zero states, so a generator seeded
with any non-zero value never reaches the absorbing zero state, however many
`generate` calls are made. -/
theorem state_never_zero (s : ℕ) (h : s ≠ 0) :
    xorshiftStep s ≠ 0
    ∧ ∀ k, (rngAfter (XorShiftRng.new s) k).state ≠ 0 :=
  ⟨xorshiftStep_ne_zero h, rngAfter_state_ne_zero h⟩

/-- C9 witness: the invariant instantiated at the concrete seed `1`. -/
theorem state_never_zero_witness :
    xorshiftStep 1 ≠ 0
    ∧ (rngAfter (XorShiftRng.new 1) 5).state ≠ 0 :=
  ⟨(state_never_zero 1 (by decide)).1, (state_never_zero 1 (by decide)).2 5⟩

/-! ### Helper lemmas: the rejection loop and `random_in_range` -/

lemma u64Mod_eq : u64Mod = 18446744073709551616 := by norm_num [u64Mod]

lemma u64MAX_eq : u64MAX = 18446744073709551615 := by norm_num [u64MAX]

lemma range_size_models_wrapping {min max : ℕ} (hle : min ≤ max) :
    range_size min max = ((max + u64Mod - min) % u64Mod + 1) % u64Mod := by
  simp only [range_size, u64Mod_eq] at *
  omega

lemma rejectLoop_spec (draws : ℕ → ℕ) (min rs th : ℕ) :
    ∀ fuel idx, ∃ k, idx ≤ k ∧ k ≤ idx + fuel ∧
      rejectLoop draws min rs th fuel idx
        = (Except.ok (min + draws k % rs), k + 1) := by
  intro fuel
  induction fuel with
  | zero => exact fun idx => ⟨idx, Nat.le_refl _, by omega, rfl⟩
  | succ fuel ih =>
    intro idx
    by_cases h : draws idx < th
    · exact ⟨idx, Nat.le_refl _, by omega, by simp [rejectLoop, h]⟩
    · obtain ⟨k, hk1, hk2, hk3⟩ := ih (idx + 1)
      exact ⟨k, by omega, by omega, by simp only [rejectLoop, if_neg h]; exact hk3⟩

lemma rejectLoop_all_rejected (draws : ℕ → ℕ) (min rs th : ℕ) :
    ∀ fuel idx, (∀ k, k < fuel → ¬ draws (idx + k) < th) →
      rejectLoop draws min rs th fuel idx
        = (Except.ok (min + draws (idx + fuel) % rs), idx + fuel + 1) := by
  intro fuel
  induction fuel with
  | zero => intro idx _; simp [rejectLoop]
  | succ fuel ih =>
    intro idx h
    have h0 : ¬ draws idx < th := by
      have := h 0 (Nat.succ_pos fuel)
      simpa using this
    have hrec := ih (idx + 1) (fun k hk => by
      have hh := h (k + 1) (by omega)
      have harg : idx + 1 + k = idx + (k + 1) := by omega
      rwa [harg])
    have harg2 : idx + 1 + fuel = idx + (fuel + 1) := by omega
    simp only [rejectLoop, if_neg h0]
    rw [hrec, harg2]

lemma random_in_range_ok (draws : ℕ → ℕ) (min max idx : ℕ) (h : min ≤ max) :
    ∃ v k, idx ≤ k ∧ k ≤ idx + 100 ∧
      random_in_range draws min max idx = (Except.ok v, k + 1) ∧
      (range_size min max = 0 → v = draws idx ∧ k = idx) ∧
      (range_size min max ≠ 0 → v = min + draws k % range_size min max) := by
  unfold random_in_range
  rw [if_neg (by omega)]
  by_cases h0 : range_size min max = 0
  · rw [if_pos h0]
    exact ⟨draws idx, idx, Nat.le_refl _, by omega, rfl,
      fun _ => ⟨rfl, rfl⟩, fun hc => absurd h0 hc⟩
  · rw [if_neg h0]
    obtain ⟨k, hk1, hk2, hk3⟩ := rejectLoop_spec draws min (range_size min max)
      (rejection_threshold min max) 100 idx
    exact ⟨min + draws k % range_size min max, k, hk1, hk2, hk3,
      fun hc => absurd hc h0, fun _ => rfl⟩

lemma range_size_full_iff {min max : ℕ} (h : min ≤ max) (hmax : max < u64Mod) :
    range_size min max = 0 ↔ min = 0 ∧ max = u64MAX := by
  have hM := u64Mod_eq
  have hX := u64MAX_eq
  simp only [range_size, hM, hX] at *
  omega

lemma range_size_of_ne_zero {min max : ℕ} (h : min ≤ max) (hmax : max < u64Mod)
    (h0 : range_size min max ≠ 0) : range_size min max = max - min + 1 := by
  have hM := u64Mod_eq
  simp only [range_size, hM] at *
  omega

/-! ### Claim theorems: `random_in_range` (C1, C2, C3, C6, C10) -/

/-- C1: for every pair of 64-bit bounds with `min ≤ max` and every stream of
64-bit generator draws, a successful `random_in_range(min, max)` returns a
value `v` with `min ≤ v ≤ max` — on the accepted-draw path, on the 100-retry
fallback path, and in the full-width case alike. -/
theorem random_in_range_bounds (draws : ℕ → ℕ) (min max idx v next : ℕ)
    (hd : ∀ k, draws k < u64Mod) (hle : min ≤ max) (hmax : max < u64Mod)
    (hok : random_in_range draws min max idx = (Except.ok v, next)) :
    min ≤ v ∧ v ≤ max := by
  obtain ⟨v2, k, _, _, heq, hfull, hnon⟩ := random_in_range_ok draws min max idx hle
  rw [heq] at hok
  injection hok with hok1 _
  injection hok1 with hv
  subst hv
  by_cases h0 : range_size min max = 0
  · obtain ⟨hv2, _⟩ := hfull h0
    obtain ⟨hmin0, hmaxM⟩ := (range_size_full_iff hle hmax).mp h0
    have := hd idx
    constructor
    · omega
    · rw [hv2, hmaxM, u64MAX_eq]
      rw [u64Mod_eq] at this
      omega
  · have hv2 := hnon h0
    have hrs := range_size_of_ne_zero hle hmax h0
    have hmod : draws k % range_size min max < range_size min max :=
      Nat.mod_lt _ (Nat.pos_of_ne_zero h0)
    rw [hv2]
    omega

/-- C1 witness: the bounds instantiated at `min = 1`, `max = 20` with the
constant draw stream `5`, whose first draw is accepted. -/
theorem random_in_range_bounds_witness : (1 : ℕ) ≤ 20 ∧ 1 ≤ 6 ∧ 6 ≤ 20 :=
  ⟨by decide, random_in_range_bounds (fun _ => 5) 1 20 0 6 1
    (fun _ => show (5 : ℕ) < u64Mod by decide) (by decide) (by decide) rfl⟩

/-- C2: `random_in_range` fails exactly when `min > max`: on that side the
result is the error whose message carries both bound values, and draws
nothing; for every `min ≤ max` it returns `Ok`. -/
theorem random_in_range_err_iff (draws : ℕ → ℕ) (min max idx : ℕ) :
    (min > max → random_in_range draws min max idx
        = (Except.error
            s!"min ({min}) must be less than or equal to max ({max})", idx))
    ∧ (min ≤ max →
        ∃ v next, random_in_range draws min max idx = (Except.ok v, next)) := by
  constructor
  · intro h
    unfold random_in_range
    rw [if_pos h]
  · intro h
    obtain ⟨v, k, _, _, heq, _⟩ := random_in_range_ok draws min max idx h
    exact ⟨v, k + 1, heq⟩

/-- C2 witness: the error side at `(21, 20)` and the success side at
`(1, 20)`. -/
theorem random_in_range_err_iff_witness :
    random_in_range (fun _ => 5) 21 20 0
      = (Except.error "min (21) must be less than or equal to max (20)", 0)
    ∧ ∃ v next, random_in_range (fun _ => 5) 1 20 0 = (Except.ok v, next) :=
  ⟨(random_in_range_err_iff (fun _ => 5) 21 20 0).1 (by decide),
   (random_in_range_err_iff (fun _ => 5) 1 20 0).2 (by decide)⟩

/-- C3: for every `min ≤ max` the call terminates after at most 101 draws
(100 bounded rejection attempts plus at most one unconditional fallback
draw); when all 100 attempts are rejected, the result is exactly
`min + (fallback draw mod range_size)` using the 101st draw. -/
theorem random_in_range_bounded_draws (draws : ℕ → ℕ) (min max idx : ℕ)
    (h : min ≤ max) :
    (random_in_range draws min max idx).2 ≤ idx + 101
    ∧ (range_size min max ≠ 0 →
        (∀ k, k < 100 → ¬ draws (idx + k) < rejection_threshold min max) →
        random_in_range draws min max idx
          = (Except.ok (min + draws (idx + 100) % range_size min max),
             idx + 100 + 1)) := by
  constructor
  · obtain ⟨v, k, _, hk2, heq, _⟩ := random_in_range_ok draws min max idx h
    rw [heq]
    show k + 1 ≤ idx + 101
    omega
  · intro h0 hrej
    unfold random_in_range
    rw [if_neg (by omega), if_neg h0]
    exact rejectLoop_all_rejected draws min (range_size min max)
      (rejection_threshold min max) 100 idx hrej

/-- C3 witness: with `min = 0`, `max = 2` every multiple-of-3 threshold
rejection fires on the constant stream `u64::MAX`, so all 100 attempts are
rejected and the fallback draw is taken at index 100. -/
theorem random_in_range_bounded_draws_witness :
    random_in_range (fun _ => u64MAX) 0 2 0
      = (Except.ok (0 + u64MAX % range_size 0 2), 0 + 100 + 1) :=
  (random_in_range_bounded_draws (fun _ => u64MAX) 0 2 0 (by decide)).2
    (by decide) (fun _ _ => by decide)

/-- C6: `random_in_range(0, u64::MAX)` never fails: the wrapping range size
is zero exactly in this full-width case and the function returns one raw
generator draw directly, with no rejection loop (exactly one draw taken). -/
theorem random_in_range_full_width (draws : ℕ → ℕ) (idx : ℕ) :
    range_size 0 u64MAX = 0
    ∧ random_in_range draws 0 u64MAX idx = (Except.ok (draws idx), idx + 1) :=
  ⟨by decide, rfl⟩

/-- C10: `random_in_range` is atomic on failure: for `min > max` it returns
the error without taking a single draw, so the PRNG position (the
thread-local generator state) is unchanged. -/
theorem random_in_range_error_no_draw (draws : ℕ → ℕ) (min max idx : ℕ)
    (h : min > max) :
    (random_in_range draws min max idx).2 = idx
    ∧ (random_in_range draws min max idx).1
        = Except.error
            s!"min ({min}) must be less than or equal to max ({max})" := by
  unfold random_in_range
  rw [if_pos h]
  exact ⟨rfl, rfl⟩

/-- C10 witness: the failing call at `(21, 20)` starting from draw position
`7` leaves the position at `7`. -/
theorem random_in_range_error_no_draw_witness :
    (random_in_range (fun _ => 5) 21 20 7).2 = 7
    ∧ (random_in_range (fun _ => 5) 21 20 7).1
        = Except.error "min (21) must be less than or equal to max (20)" :=
  random_in_range_error_no_draw (fun _ => 5) 21 20 7 (by decide)

/-! ### Helper lemmas: swapping two list positions is a permutation -/

lemma get_cons_set_perm {α : Type _} :
    ∀ (t : List α) (m : ℕ) (hm : m < t.length) (a : α),
      List.Perm (t[m] :: t.set m a) (a :: t) := by
  intro t
  induction t with
  | nil => intro m hm a; simp at hm
  | cons b t ih =>
    intro m hm a
    cases m with
    | zero =>
      simp only [List.getElem_cons_zero, List.set_cons_zero]
      exact List.Perm.swap a b t
    | succ k =>
      simp only [List.getElem_cons_succ, List.set_cons_succ]
      have hk : k < t.length := by simpa using hm
      exact ((List.Perm.swap b (t[k]) (t.set k a)).trans
        (((ih k hk a).cons b).trans (List.Perm.swap a b t)))

lemma set_set_perm {α : Type _} :
    ∀ (l : List α) (i j : ℕ) (hi : i < l.length) (hj : j < l.length),
      List.Perm ((l.set i l[j]).set j l[i]) l := by
  intro l
  induction l with
  | nil => intro i j hi _; simp at hi
  | cons a t ih =>
    intro i j hi hj
    cases i with
    | zero =>
      cases j with
      | zero =>
        simp only [List.getElem_cons_zero, List.set_cons_zero]
        exact List.Perm.refl _
      | succ m =>
        simp only [List.getElem_cons_zero, List.getElem_cons_succ,
          List.set_cons_zero, List.set_cons_succ]
        exact get_cons_set_perm t m (by simpa using hj) a
    | succ n =>
      cases j with
      | zero =>
        simp only [List.getElem_cons_zero, List.getElem_cons_succ,
          List.set_cons_succ, List.set_cons_zero]
        exact get_cons_set_perm t n (by simpa using hi) a
      | succ m =>
        simp only [List.getElem_cons_succ, List.set_cons_succ]
        exact (ih n m (by simpa using hi) (by simpa using hj)).cons a

lemma listSwap_perm {α : Type _} (l : List α) (i j : ℕ) :
    List.Perm (listSwap l i j) l := by
  unfold listSwap
  split
  · next a b hi hj =>
    obtain ⟨hi', ha⟩ := List.getElem?_eq_some_iff.mp hi
    obtain ⟨hj', hb⟩ := List.getElem?_eq_some_iff.mp hj
    subst ha hb
    exact set_set_perm l i j hi' hj'
  · exact List.Perm.refl l

lemma shuffleLoop_perm {α : Type _} (draws : ℕ → ℕ) :
    ∀ (i : ℕ) (l : List α) (idx : ℕ),
      List.Perm (shuffleLoop draws i l idx).1 l := by
  intro i
  induction i with
  | zero => intro l idx; exact List.Perm.refl l
  | succ i ih =>
    intro l idx
    show List.Perm (shuffleLoop draws i
      (listSwap l (i + 1) (sampleIndex draws (i + 1) idx).1)
      (sampleIndex draws (i + 1) idx).2).1 l
    exact (ih _ _).trans (listSwap_perm l (i + 1) _)

/-! ### Claim theorems: shuffle (C7, C8) -/

/-- C7: for every list and every stream of generator draws, `shuffle`
produces a permutation of the input (same multiset: no element lost,
duplicated, or altered), and a list of length 0 or 1 is left unchanged. -/
theorem shuffle_perm {α : Type _} (draws : ℕ → ℕ) (l : List α) (idx : ℕ) :
    List.Perm (shuffle draws l idx).1 l
    ∧ (l.length ≤ 1 → (shuffle draws l idx).1 = l) := by
  constructor
  · exact shuffleLoop_perm draws (l.length - 1) l idx
  · intro h
    unfold shuffle
    rw [show l.length - 1 = 0 from by omega]
    simp only [shuffleLoop]

/-- C7 witness: the permutation property and the no-op on a singleton, at
concrete inputs. -/
theorem shuffle_perm_witness :
    List.Perm (shuffle (fun _ => 0) [10, 20, 30] 0).1 [10, 20, 30]
    ∧ (shuffle (fun _ => 0) [42] 0).1 = [42] :=
  ⟨(shuffle_perm (fun _ => 0) [10, 20, 30] 0).1,
   (shuffle_perm (fun _ => 0) [42] 0).2 (by decide)⟩

/-- C8: every sampler call made by the shuffle loop, `random_in_range(0, i)`,
succeeds — in `ℕ` (as in `u64`/`usize`) `0 ≤ i` always holds, so the
`InvalidRange` failure path is unreachable from this call site and the
`unwrap` (modelled by `sampleIndex`, whose panic branch returns a default)
always passes through the genuine `Ok` value. -/
theorem shuffle_unwrap_safe (draws : ℕ → ℕ) (i idx : ℕ) :
    (random_in_range draws 0 i idx).1
      = Except.ok (sampleIndex draws i idx).1 := by
  obtain ⟨v, k, _, _, heq, _⟩ := random_in_range_ok draws 0 i idx (Nat.zero_le i)
  unfold sampleIndex
  rw [heq]
